import Mathlib

/-!
Verification of the Organizer repository's transactional file-mutation core
(`src/amaa/core/undo.py`, `src/amaa/core/orchestrator.py`,
`src/amaa/utils/fileops.py`) against its natural-language specification.

The Python code is shallowly embedded: pure path/string manipulation becomes
Lean functions on `String`, the SQLite-backed ledger becomes a list of
records threaded through explicit state, the filesystem becomes a finite
association list of file paths plus a list of directories, and unbounded
`while` loops become fuel-indexed recursions (`none` = the loop has not
terminated within the given fuel).  Python exceptions become explicit
outcome values.  Paths are modelled as the strings `str(Path(...))`
produces for already-normalised inputs (no trailing slashes, `/` separator),
which is the form every call site in the embedded code constructs.
-/

namespace Organizer

/-! ## Path helpers (embedding of the `pathlib.PurePath` accessors used) -/

/-- Split a character list at every `/` (the semantics of
`String.splitOn "/"`, implemented structurally so it kernel-reduces). -/
def splitOnSlash : List Char → List (List Char)
  | [] => [[]]
  | c :: rest =>
    match splitOnSlash rest with
    | [] => [[]]
    | g :: gs => if c == '/' then [] :: g :: gs else (c :: g) :: gs

/-- Join character-list components with `/`. -/
def joinSlash : List (List Char) → List Char
  | [] => []
  | [g] => g
  | g :: gs => g ++ '/' :: joinSlash gs

/-- Lowercase a string (the semantics of `str.lower()` on ASCII input /
`String.toLower`, implemented so it kernel-reduces). -/
def lowerStr (s : String) : String := String.mk (s.toList.map Char.toLower)

/-- Last component of a path, as `pathlib.Path(s).name` for normalised `s`. -/
def pathName (s : String) : String :=
  match (splitOnSlash s.toList).reverse with
  | [] => s
  | x :: _ => String.mk x

/-- Index of the last `.` in a list of characters, if any. -/
def lastDotIdx (cs : List Char) : Option Nat :=
  (List.range cs.length).foldl
    (fun acc i => if cs.getD i ' ' == '.' then some i else acc) none

/-- Embeds `pathlib.Path(s).suffix`: the extension from the last dot of the final
component, empty when that dot is the first or last character. -/
def pathSuffix (s : String) : String :=
  let nm := pathName s
  let cs := nm.toList
  match lastDotIdx cs with
  | some i => if 0 < i ∧ i < cs.length - 1 then String.mk (cs.drop i) else ""
  | none => ""

/-- Embeds `pathlib.Path(s).stem`: the final component without its extension. -/
def pathStem (s : String) : String :=
  let nm := pathName s
  let cs := nm.toList
  match lastDotIdx cs with
  | some i => if 0 < i ∧ i < cs.length - 1 then String.mk (cs.take i) else nm
  | none => nm

/-- Embeds `pathlib.Path(s).parent` for normalised multi-component paths. -/
def pathParent (s : String) : String :=
  match splitOnSlash s.toList with
  | [] => "."
  | [_] => "."
  | comps =>
    let j := joinSlash comps.dropLast
    if j = [] then "/" else String.mk j

/-- Embeds `xs` begins with `pre` (character lists). -/
def listLead : List Char → List Char → Bool
  | [], _ => true
  | _ :: _, [] => false
  | a :: xs, b :: ys => a == b && listLead xs ys

/-- String `s` starts with `p`. -/
def strStarts (p s : String) : Bool := listLead p.toList s.toList

/-- The character at position `i` is an ASCII digit. -/
def digitAt (cs : List Char) (i : Nat) : Bool := (cs.getD i ' ').isDigit

/-- Embeds `re.match(r'^\d{4}-\d{2}-\d{2}', ·)` on a character list: the first ten
characters are four digits, a dash, two digits, a dash, two digits. -/
def isoDateChars (cs : List Char) : Bool :=
  decide (10 ≤ cs.length) &&
  digitAt cs 0 && digitAt cs 1 && digitAt cs 2 && digitAt cs 3 &&
  (cs.getD 4 ' ' == '-') && digitAt cs 5 && digitAt cs 6 &&
  (cs.getD 7 ' ' == '-') && digitAt cs 8 && digitAt cs 9

/-- Embeds `bool(re.match(r'^\d{4}-\d{2}-\d{2}', s))`. -/
def startsWithIsoDate (s : String) : Bool := isoDateChars s.toList

/-! ## `FileOps.get_unique_path` (src/amaa/utils/fileops.py lines 57-73) -/

/-- The `while True` body of `get_unique_path`, fuel-indexed: candidate
`{stem}{sep}{counter}{suffix}` in `parent`, re-checked each turn.  `none`
means the loop has not returned within `fuel` iterations. -/
def uniqueLoop (ex : String → Bool) (parent stem sfx sep : String) :
    Nat → Nat → Option String
  | _, 0 => none
  | counter, fuel + 1 =>
    let newPath := parent ++ "/" ++ stem ++ sep ++ toString counter ++ sfx
    if ex newPath then uniqueLoop ex parent stem sfx sep (counter + 1) fuel
    else some newPath

/-- Embeds `FileOps.get_unique_path(path, separator)` against the filesystem
snapshot `ex` (the `Path.exists` oracle). -/
def getUniquePath (ex : String → Bool) (path sep : String) (fuel : Nat) :
    Option String :=
  if !(ex path) then some path
  else uniqueLoop ex (pathParent path) (pathStem path) (pathSuffix path) sep 1 fuel

/-! ## Orchestrator proposal generation (src/amaa/core/orchestrator.py) -/

/-- The fields of `PerceptionResult` the orchestrator consumes. -/
structure PerceptionResult where
  suggestedCategory : Option String
  suggestedPath : Option String
  confidence : Rat
deriving DecidableEq

/-- The fields of `mapmaker.FileInfo` the orchestrator consumes. -/
structure FileInfo where
  path : String
  name : String
  category : Option String
deriving DecidableEq

/-- Python `a or b` on optional strings: `None` and `""` are falsy. -/
def pyOrS : Option String → Option String → Option String
  | some s, b => if s = "" then b else some s
  | none, b => b

/-- Embeds `perception.suggested_category or file_info.category or 'misc'`. -/
def chooseCategory (sc fc : Option String) : String :=
  match pyOrS (pyOrS sc fc) (some "misc") with
  | some s => s
  | none => "misc"

/-- The `while new_path.exists()` loop of `_determine_new_location`
(lines 263-268), fuel-indexed; carries the current `(new_name, new_path)`
and the counter.  `none` means the loop has not exited within `fuel`. -/
def resolveLoop (ex : String → Bool) (folder today orig ext : String) :
    String → String → Nat → Nat → Option (String × String)
  | _, _, _, 0 => none
  | nm, path, counter, fuel + 1 =>
    if ex path then
      let nm2 := today ++ "_" ++ orig ++ "_" ++ toString counter ++ ext
      resolveLoop ex folder today orig ext nm2 (folder ++ "/" ++ nm2) (counter + 1) fuel
    else some (path, nm)

/-- Embeds `Orchestrator._determine_new_location` (lines 237-282).  `today` is
`datetime.now().strftime("%Y-%m-%d")`; `ex` is the `Path.exists` oracle.
Returns `(new_path, new_name, reason)`. -/
def determineNewLocation (fi : FileInfo) (p : PerceptionResult)
    (rootPath today : String) (ex : String → Bool) (fuel : Nat) :
    Option (String × String × String) :=
  let source := fi.path
  let category := chooseCategory p.suggestedCategory fi.category
  let categoryFolder := rootPath ++ "/" ++ lowerStr category
  let originalName := pathStem source
  let extension := pathSuffix source
  let newName :=
    if startsWithIsoDate originalName then pathName source
    else today ++ "_" ++ originalName ++ extension
  match resolveLoop ex categoryFolder today originalName extension
      newName (categoryFolder ++ "/" ++ newName) 1 fuel with
  | none => none
  | some (np, nn) =>
    let reason := "Categorized as \x27" ++ category ++ "\x27 based on content analysis"
    match p.suggestedPath with
    | some sp =>
      if (!(sp == "")) && strStarts "/" sp then
        some (sp ++ "/" ++ nn, nn, "LLM suggested: " ++ sp)
      else some (np, nn, reason)
    | none => some (np, nn, reason)

/-- Embeds `OrganizeAction` enum. -/
inductive OrganizeAction where
  | move | copy | rename | createDir | tag | skip
deriving DecidableEq

/-- Embeds `ProposedChange` dataclass (per-change mutable flag mutation of the
Python object is modelled by returning updated copies). -/
structure ProposedChange where
  action : OrganizeAction
  sourcePath : String
  destinationPath : String
  reason : String
  confidence : Rat
  newFilename : Option String
  category : Option String
  approved : Bool
  executed : Bool
  error : Option String
deriving DecidableEq

/-- Embeds `Orchestrator._is_already_organized` (lines 229-235). -/
def isAlreadyOrganized (fi : FileInfo) : Bool := startsWithIsoDate fi.name

/-- Embeds `Orchestrator._generate_proposal` (lines 194-227).  Outer `Option` is
fuel exhaustion of the inner conflict loop; inner `Option` is the
function's own `Optional[ProposedChange]` result. -/
def generateProposal (fi : FileInfo) (p : PerceptionResult)
    (rootPath today : String) (ex : String → Bool) (fuel : Nat) :
    Option (Option ProposedChange) :=
  if isAlreadyOrganized fi then
    some (some
      { action := .skip, sourcePath := fi.path, destinationPath := fi.path
        reason := "Already organized", confidence := 1, newFilename := none
        category := none, approved := false, executed := false, error := none })
  else
    match determineNewLocation fi p rootPath today ex fuel with
    | none => none
    | some (newPath, newName, reason) =>
      if newPath == fi.path then some none
      else some (some
        { action := .move, sourcePath := fi.path, destinationPath := newPath
          reason := reason, confidence := p.confidence
          newFilename := some newName
          category := pyOrS p.suggestedCategory fi.category
          approved := false, executed := false, error := none })

/-! ## Approval calls (orchestrator lines 399-417) -/

/-- Set the `approved` flag of the entry at position `j`. -/
def setApprovedAt (b : Bool) : List ProposedChange → Nat → List ProposedChange
  | [], _ => []
  | c :: cs, 0 => { c with approved := b } :: cs
  | c :: cs, n + 1 => c :: setApprovedAt b cs n

/-- Shared body of `approve_single` / `reject_single`: `session = none`
models "no session"; the result is `none` exactly when the Python code
raises `IndexError` (index below `-len`), otherwise
`some (returnValue, updatedSession)`. -/
def approveFlagSingle (b : Bool) (session : Option (List ProposedChange))
    (i : Int) : Option (Bool × Option (List ProposedChange)) :=
  match session with
  | none => some (false, none)
  | some chs =>
    if (chs.length : Int) ≤ i then some (false, some chs)
    else
      let j : Int := if i < 0 then (chs.length : Int) + i else i
      if 0 ≤ j ∧ j < (chs.length : Int) then
        some (true, some (setApprovedAt b chs j.toNat))
      else none

/-- Embeds `Orchestrator.approve_single`. -/
def approveSingle (session : Option (List ProposedChange)) (i : Int) :
    Option (Bool × Option (List ProposedChange)) :=
  approveFlagSingle true session i

/-- Embeds `Orchestrator.reject_single`. -/
def rejectSingle (session : Option (List ProposedChange)) (i : Int) :
    Option (Bool × Option (List ProposedChange)) :=
  approveFlagSingle false session i

/-! ## The Action Ledger (src/amaa/core/undo.py) -/

/-- Embeds `ActionType` enum. -/
inductive AType where
  | move | copy | rename | delete | createDir | tag | batchT
deriving DecidableEq

/-- Embeds `ActionStatus` enum. -/
inductive AStatus where
  | pending | executed | undone | failed
deriving DecidableEq

/-- One row of the `action_history` table.  `timestamp` models the ISO
timestamp string through its chronological order.  Of the opaque
`metadata` JSON column the code only ever reads `metadata.get('backup_path')`,
embedded here as `backupPath`. -/
structure ActionRecord where
  id : Nat
  atype : AType
  sourcePath : String
  destinationPath : String
  timestamp : Nat
  status : AStatus
  batchId : Option String
  backupPath : Option String
  errorMessage : Option String
deriving DecidableEq

/-- The ledger table: rows in insertion order plus the AUTOINCREMENT seed. -/
structure Ledger where
  records : List ActionRecord
  nextId : Nat
deriving DecidableEq

/-- Embeds `UndoManager.record_action`: INSERT a new Pending row, returning it. -/
def recordAction (t : AType) (src : String) (dst : Option String)
    (bid : Option String) (backup : Option String) (ts : Nat)
    (lg : Ledger) : ActionRecord × Ledger :=
  let r : ActionRecord :=
    { id := lg.nextId, atype := t, sourcePath := src
      destinationPath := dst.getD "", timestamp := ts, status := .pending
      batchId := bid, backupPath := backup, errorMessage := none }
  (r, { records := lg.records ++ [r], nextId := lg.nextId + 1 })

/-- Embeds `UndoManager.mark_executed`: `UPDATE ... SET status = 'executed' WHERE
id = ?`, unconditionally on the current status. -/
def markExecuted (i : Nat) (lg : Ledger) : Ledger :=
  { lg with records :=
      lg.records.map (fun r => if r.id == i then { r with status := .executed } else r) }

/-- Embeds `UndoManager.mark_failed`: sets status and error message, unconditionally. -/
def markFailed (i : Nat) (msg : String) (lg : Ledger) : Ledger :=
  { lg with records :=
      lg.records.map (fun r =>
        if r.id == i then { r with status := .failed, errorMessage := some msg } else r) }

/-- Embeds `UndoManager.mark_undone`: sets status to undone, unconditionally. -/
def markUndone (i : Nat) (lg : Ledger) : Ledger :=
  { lg with records :=
      lg.records.map (fun r => if r.id == i then { r with status := .undone } else r) }

/-! ## Filesystem model -/

/-- Filesystem snapshot: file paths with content tokens, plus directories.
Directory creation is only observable through the `create_dir` undo path,
so `mkdir -p` is modelled as recording the directory string itself. -/
structure FS where
  files : List (String × Nat)
  dirs : List String
deriving DecidableEq

/-- Content at a file path. -/
def fsGetFile (fs : FS) (p : String) : Option Nat :=
  (fs.files.find? (fun e => e.1 == p)).map (fun e => e.2)

/-- Remove a file path. -/
def removeFile (fs : FS) (p : String) : FS :=
  { fs with files := fs.files.filter (fun e => !(e.1 == p)) }

/-- Create/overwrite a file path with content `v`. -/
def putFile (fs : FS) (p : String) (v : Nat) : FS :=
  let fs1 := removeFile fs p
  { fs1 with files := (p, v) :: fs1.files }

/-- Embeds `dst.parent.mkdir(parents=True, exist_ok=True)`. -/
def mkdirP (fs : FS) (d : String) : FS :=
  if fs.dirs.contains d then fs else { fs with dirs := d :: fs.dirs }

/-- A directory is non-empty when some file or other directory lies under it. -/
def dirNonempty (fs : FS) (d : String) : Bool :=
  fs.files.any (fun e => strStarts (d ++ "/") e.1) ||
  fs.dirs.any (fun x => (!(x == d)) && strStarts (d ++ "/") x)

/-- Remove a directory entry. -/
def removeDir (fs : FS) (d : String) : FS :=
  { fs with dirs := fs.dirs.filter (fun x => !(x == d)) }

/-- Combined mutable state: the ledger database plus the filesystem. -/
structure St where
  ledger : Ledger
  fs : FS
deriving DecidableEq

/-! ## `UndoManager._perform_undo` (undo.py lines 352-416)

Falls through to the trailing `return True` whenever no branch fired —
in particular for a `delete` record without a usable backup. -/

/-- Embeds `_perform_undo`: attempts the inverse of `r` on `fs`, returning the
success flag the Python function returns plus the new filesystem. -/
def performUndo (r : ActionRecord) (fs : FS) : Bool × FS :=
  match r.atype with
  | .move =>
    match fsGetFile fs r.destinationPath with
    | some v =>
      let fs1 := mkdirP fs (pathParent r.sourcePath)
      (true, putFile (removeFile fs1 r.destinationPath) r.sourcePath v)
    | none => (false, fs)
  | .copy =>
    match fsGetFile fs r.destinationPath with
    | some _ => (true, removeFile fs r.destinationPath)
    | none => (true, fs)
  | .rename =>
    match fsGetFile fs r.destinationPath with
    | some v => (true, putFile (removeFile fs r.destinationPath) r.sourcePath v)
    | none => (true, fs)
  | .delete =>
    match r.backupPath with
    | some bp =>
      match fsGetFile fs bp with
      | some v =>
        if bp == "" then (true, fs)
        else
          let fs1 := mkdirP fs (pathParent r.sourcePath)
          (true, putFile (removeFile fs1 bp) r.sourcePath v)
      | none => (true, fs)
    | none => (true, fs)
  | .createDir =>
    if fs.dirs.contains r.sourcePath then
      if dirNonempty fs r.sourcePath then (false, fs)
      else (true, removeDir fs r.sourcePath)
    else (true, fs)
  | .tag => (true, fs)
  | .batchT => (true, fs)

/-- Embeds `SELECT ... WHERE status = 'executed' ORDER BY id DESC LIMIT 1`. -/
def maxExecuted (rs : List ActionRecord) : Option ActionRecord :=
  rs.foldl
    (fun acc r =>
      if r.status == .executed then
        match acc with
        | none => some r
        | some a => if a.id < r.id then some r else some a
      else acc)
    none

/-- Embeds `UndoManager.undo_last_action` (lines 266-297): fetch the newest
Executed record, attempt the physical reversal, and mark it Undone only
when `_perform_undo` reported success. -/
def undoLastAction (st : St) : Option ActionRecord × St :=
  match maxExecuted st.ledger.records with
  | none => (none, st)
  | some r =>
    let (ok, fs2) := performUndo r st.fs
    if ok then
      (some { r with status := .undone },
       { ledger := markUndone r.id st.ledger, fs := fs2 })
    else (some r, { st with fs := fs2 })

/-- Insert into a list kept in descending-id order. -/
def insertDescById (r : ActionRecord) : List ActionRecord → List ActionRecord
  | [] => [r]
  | x :: xs => if x.id ≤ r.id then r :: x :: xs else x :: insertDescById r xs

/-- Embeds `ORDER BY id DESC` over distinct ids. -/
def sortDescById : List ActionRecord → List ActionRecord
  | [] => []
  | x :: xs => insertDescById x (sortDescById xs)

/-- The rows `undo_batch` fetches: `WHERE batch_id = ? AND status =
'executed' ORDER BY id DESC`. -/
def undoBatchSelect (bid : String) (rs : List ActionRecord) : List ActionRecord :=
  sortDescById (rs.filter (fun r => r.batchId == some bid && r.status == .executed))

/-- The `for row in cursor.fetchall()` loop of `undo_batch`: attempt each
fetched record in order, marking Undone and collecting it on success. -/
def undoBatchLoop : List ActionRecord → St → List ActionRecord →
    List ActionRecord × St
  | [], st, acc => (acc, st)
  | r :: rest, st, acc =>
    let (ok, fs2) := performUndo r st.fs
    if ok then
      undoBatchLoop rest { ledger := markUndone r.id st.ledger, fs := fs2 }
        (acc ++ [{ r with status := .undone }])
    else undoBatchLoop rest { st with fs := fs2 } acc

/-- Embeds `UndoManager.undo_batch` (lines 299-329).  The third component lists
the ids of the records whose inverse was attempted, in attempt order. -/
def undoBatch (bid : String) (st : St) : List ActionRecord × St × List Nat :=
  let sel := undoBatchSelect bid st.ledger.records
  let (undone, st2) := undoBatchLoop sel st []
  (undone, st2, sel.map (fun r => r.id))

/-! ## `UndoManager.cleanup_old_records` (lines 498-533) -/

/-- First DELETE: rows older than the cutoff whose status is undone or
failed are removed (the rows kept). -/
def agePass (cutoff : Nat) (rs : List ActionRecord) : List ActionRecord :=
  rs.filter (fun r =>
    !(decide (r.timestamp < cutoff) && (r.status == .undone || r.status == .failed)))

/-- Second DELETE: keep only rows whose id is among the `maxHistory`
largest ids (`id NOT IN (SELECT id ... ORDER BY id DESC LIMIT ?)`),
regardless of status. -/
def countPass (maxHistory : Nat) (rs : List ActionRecord) : List ActionRecord :=
  let keepIds := ((sortDescById rs).take maxHistory).map (fun r => r.id)
  rs.filter (fun r => keepIds.contains r.id)

/-- Embeds `cleanup_old_records`, returning the remaining ledger and the deleted
row count.  `cutoff` is `now - retention_days` on the timestamp scale. -/
def cleanupOldRecords (cutoff maxHistory : Nat) (lg : Ledger) : Ledger × Nat :=
  let l1 := agePass cutoff lg.records
  let d1 := lg.records.length - l1.length
  let l2 := countPass maxHistory l1
  let d2 := l1.length - l2.length
  ({ lg with records := l2 }, d1 + d2)

/-! ## Batch execution (`Orchestrator.execute` / `_execute_change`,
orchestrator.py lines 419-529, with `BatchContext` from undo.py)

Each step of an item is logged as an event so temporal ordering between
the write-ahead ledger insert and the physical mutation is statable. -/

/-- Observable events of one executed item, in program order. -/
inductive Ev where
  | append (rid : Nat)
  | mkdirEv (dir : String)
  | mutate (src dst : String)
  | setStatus (rid : Nat) (st : AStatus)
deriving DecidableEq

/-- Holds when the event trace contains the ledger append of record `rid`
strictly before any file mutation event. -/
def appendBeforeMutate (rid : Nat) : List Ev → Bool
  | [] => false
  | .append i :: rest => if i == rid then true else appendBeforeMutate rid rest
  | .mutate _ _ :: _ => false
  | _ :: rest => appendBeforeMutate rid rest

/-- Outcome of `_execute_change`: the returned Bool, or a raised exception
message together with the id of the batch's current (Pending) record —
`BatchContext._current_action` at raise time. -/
inductive ChangeOut where
  | ok (b : Bool)
  | raised (msg : String) (cur : Nat)
deriving DecidableEq

/-- Embeds `Orchestrator._execute_change` (lines 487-529).  `shutil.move`,
`shutil.copy2` and `Path.rename` raise when the source file is absent;
the RENAME branch records its ledger row through `batch.record_move`,
hence with action type `move`, exactly as the source does. -/
def executeChange (ch : ProposedChange) (bid : String) (ts : Nat) (st : St) :
    St × List Ev × ChangeOut :=
  match ch.action with
  | .move =>
    let src := ch.sourcePath
    let dst := ch.destinationPath
    let st1 : St := { st with fs := mkdirP st.fs (pathParent dst) }
    let (r, lg) := recordAction .move src (some dst) (some bid) none ts st1.ledger
    let st2 : St := { st1 with ledger := lg }
    match fsGetFile st2.fs src with
    | none =>
      (st2, [.mkdirEv (pathParent dst), .append r.id],
       .raised ("No such file or directory: " ++ src) r.id)
    | some v =>
      ({ ledger := markExecuted r.id lg, fs := putFile (removeFile st2.fs src) dst v },
       [.mkdirEv (pathParent dst), .append r.id, .mutate src dst,
        .setStatus r.id .executed],
       .ok true)
  | .copy =>
    let src := ch.sourcePath
    let dst := ch.destinationPath
    let st1 : St := { st with fs := mkdirP st.fs (pathParent dst) }
    let (r, lg) := recordAction .copy src (some dst) (some bid) none ts st1.ledger
    let st2 : St := { st1 with ledger := lg }
    match fsGetFile st2.fs src with
    | none =>
      (st2, [.mkdirEv (pathParent dst), .append r.id],
       .raised ("No such file or directory: " ++ src) r.id)
    | some v =>
      ({ ledger := markExecuted r.id lg, fs := putFile st2.fs dst v },
       [.mkdirEv (pathParent dst), .append r.id, .mutate src dst,
        .setStatus r.id .executed],
       .ok true)
  | .rename =>
    let src := ch.sourcePath
    let dst := ch.destinationPath
    let (r, lg) := recordAction .move src (some dst) (some bid) none ts st.ledger
    let st2 : St := { st with ledger := lg }
    match fsGetFile st2.fs src with
    | none =>
      (st2, [.append r.id],
       .raised ("No such file or directory: " ++ src) r.id)
    | some v =>
      ({ ledger := markExecuted r.id lg, fs := putFile (removeFile st2.fs src) dst v },
       [.append r.id, .mutate src dst, .setStatus r.id .executed],
       .ok true)
  | _ => (st, [], .ok false)

/-- The aggregated `results` dict of `Orchestrator.execute`. -/
structure ExecResults where
  executed : Nat
  failed : Nat
  skipped : Nat
  errors : List (String × String)
  fatal : Option String
deriving DecidableEq

/-- Fresh `results` dict. -/
def initResults : ExecResults :=
  { executed := 0, failed := 0, skipped := 0, errors := [], fatal := none }

/-- One iteration of the `for change in approved_changes` loop: the
`try/except` around `_execute_change`.  A raised exception is caught here:
the error is appended to `results['errors']` and the current ledger row is
marked Failed via `batch.mark_failure`; execution then continues.  (No
progress callback is registered in this model, so nothing can raise
outside the `try`.) -/
def executeItem (bid : String) (ts : Nat) (st : St) (res : ExecResults)
    (ch : ProposedChange) : St × ExecResults × List Ev :=
  let (st1, tr, out) := executeChange ch bid ts st
  match out with
  | .ok true => (st1, { res with executed := res.executed + 1 }, tr)
  | .ok false => (st1, { res with failed := res.failed + 1 }, tr)
  | .raised msg rid =>
    ({ st1 with ledger := markFailed rid msg st1.ledger },
     { res with failed := res.failed + 1,
                errors := res.errors ++ [(ch.sourcePath, msg)] },
     tr ++ [.setStatus rid .failed])

/-- The whole `for` loop over the approved changes. -/
def executeLoop (bid : String) (ts : Nat) :
    List ProposedChange → St → ExecResults → St × ExecResults
  | [], st, res => (st, res)
  | ch :: rest, st, res =>
    let (st1, res1, _) := executeItem bid ts st res ch
    executeLoop bid ts rest st1 res1

/-- Embeds `Orchestrator.execute` (lines 419-485) on a session's change list.
Per-change flag updates on the session object are not modelled; the
returned state and results carry everything the claims consult.  Because
every per-item exception is caught inside the loop, `BatchContext.__exit__`
never observes an exception and its rollback never runs; the function
always returns normally. -/
def executeSession (changes : List ProposedChange) (dryRun : Bool)
    (bid : String) (ts : Nat) (st : St) : St × ExecResults :=
  let approved := changes.filter (fun c => c.approved)
  if approved.isEmpty then
    (st, { initResults with fatal := some "No approved changes" })
  else if dryRun then
    (st, { initResults with executed := approved.length })
  else
    executeLoop bid ts approved st initResults

/-! ## Concrete scenario inputs used by the theorems below -/

/-- An approved move proposal. -/
def mkMoveChange (s d : String) : ProposedChange :=
  { action := .move, sourcePath := s, destinationPath := d, reason := ""
    confidence := 0, newFilename := none, category := none
    approved := true, executed := false, error := none }

/-- Three-item batch: items 1 and 3 have existing sources, item 2 does not. -/
def threeItemChanges : List ProposedChange :=
  [mkMoveChange "/s/a" "/d/a", mkMoveChange "/s/b" "/d/b", mkMoveChange "/s/c" "/d/c"]

/-- Initial state for the three-item batch: `/s/b` is missing. -/
def threeItemSt : St :=
  { ledger := { records := [], nextId := 0 }
    fs := { files := [("/s/a", 1), ("/s/c", 3)], dirs := [] } }

/-- An Executed Delete record whose metadata has no backup path. -/
def delNoBackupRec : ActionRecord :=
  { id := 0, atype := .delete, sourcePath := "/docs/f.txt", destinationPath := ""
    timestamp := 0, status := .executed, batchId := none, backupPath := none
    errorMessage := none }

/-- State holding only that Delete record; `/docs/f.txt` is gone. -/
def delNoBackupSt : St :=
  { ledger := { records := [delNoBackupRec], nextId := 1 }
    fs := { files := [("/other.txt", 7)], dirs := [] } }

/-- A record already in the Failed state. -/
def failedRec0 : ActionRecord :=
  { id := 0, atype := .move, sourcePath := "/s", destinationPath := "/d"
    timestamp := 0, status := .failed, batchId := none, backupPath := none
    errorMessage := some "boom" }

/-- An Executed move record with the given id and timestamp. -/
def execRecAt (i ts : Nat) : ActionRecord :=
  { id := i, atype := .move, sourcePath := "/s", destinationPath := "/d"
    timestamp := ts, status := .executed, batchId := none, backupPath := none
    errorMessage := none }

/-- A Pending record with the given id and timestamp. -/
def pendRecAt (i ts : Nat) : ActionRecord :=
  { id := i, atype := .move, sourcePath := "/s", destinationPath := "/d"
    timestamp := ts, status := .pending, batchId := none, backupPath := none
    errorMessage := none }

/-- An Executed move record in batch `b` moving `/s/x{i}` to `/d/x{i}`. -/
def batchExecRec (b : String) (i : Nat) : ActionRecord :=
  { id := i, atype := .move, sourcePath := "/s/x" ++ toString i
    destinationPath := "/d/x" ++ toString i, timestamp := i
    status := .executed, batchId := some b, backupPath := none
    errorMessage := none }

/-- Result of running the three-item batch (item 2 fails) for real. -/
def threeItemRun : St × ExecResults :=
  executeSession threeItemChanges false "B" 5 threeItemSt

/-- A two-record batch-"B" ledger in a state, ids ascending. -/
def undoBatchStW : St :=
  { ledger := { records := [batchExecRec "B" 0, batchExecRec "B" 1], nextId := 2 }
    fs := { files := [], dirs := [] } }

/-- The `/src/report.pdf` scan result of the spec example. -/
def reportFi : FileInfo :=
  { path := "/src/report.pdf", name := "report.pdf", category := none }

/-- The classifier output of the spec example: category `documents`. -/
def reportPerception : PerceptionResult :=
  { suggestedCategory := some "documents", suggestedPath := none
    confidence := 9 / 10 }

/-- A perception carrying an absolute LLM-suggested destination path. -/
def llmPerception : PerceptionResult :=
  { suggestedCategory := some "documents", suggestedPath := some "/llm/dir"
    confidence := 9 / 10 }

/-- A perception whose suggested category is not lowercase. -/
def upperPerception : PerceptionResult :=
  { suggestedCategory := some "Documents", suggestedPath := none
    confidence := 9 / 10 }

/-- The organized filename of the report example, as rescanned. -/
def reportFi2 : FileInfo :=
  { path := "/dst/documents/2025-06-01_report.pdf"
    name := "2025-06-01_report.pdf", category := none }

/-- The no-op Skip proposal `_generate_proposal` returns for an
already-organized file. -/
def skipChange (fi : FileInfo) : ProposedChange :=
  { action := .skip, sourcePath := fi.path, destinationPath := fi.path
    reason := "Already organized", confidence := 1, newFilename := none
    category := none, approved := false, executed := false, error := none }

/-! ## Helper lemmas -/

/-- When every candidate exists, the `get_unique_path` loop never returns. -/
theorem uniqueLoop_all_none (parent stem sfx sep : String) :
    ∀ n c, uniqueLoop (fun _ => true) parent stem sfx sep c n = none := by
  intro n
  induction n with
  | zero => intro c; rfl
  | succ n ih => intro c; simp only [uniqueLoop, if_true]; exact ih (c + 1)

/-- When every candidate exists, the orchestrator conflict loop never exits. -/
theorem resolveLoop_all_none (folder today orig ext : String) :
    ∀ n nm p c, resolveLoop (fun _ => true) folder today orig ext nm p c n = none := by
  intro n
  induction n with
  | zero => intro nm p c; rfl
  | succ n ih => intro nm p c; simp only [resolveLoop, if_true]; exact ih _ _ (c + 1)

/-! ## C6 — the Conflict Resolver has no duplicate cap -/

/-- C6 counterexample: against a snapshot where every candidate path
exists, `get_unique_path` has produced neither a free path nor any
`TooManyDuplicates`-style failure after 1000 candidate attempts (the spec
promises the error once attempts exceed a cap of 999); the loop is simply
still running. -/
theorem getUniquePath_no_cap_cex :
    getUniquePath (fun _ => true) "/a/b.txt" "_" 1000 = none := by
  have h := uniqueLoop_all_none (pathParent "/a/b.txt") (pathStem "/a/b.txt")
    (pathSuffix "/a/b.txt") "_" 1000 1
  simpa [getUniquePath] using h

/-- C6 amended: `get_unique_path` (and the orchestrator's in-line conflict
loop) cap nothing and raise nothing: on a snapshot where every candidate
collides, the loop runs forever — for every fuel bound it has not
terminated — and no `TooManyDuplicates` error exists in the code. -/
theorem getUniquePath_uncapped (path sep folder today orig ext nm p0 : String)
    (fuel c : Nat) :
    getUniquePath (fun _ => true) path sep fuel = none ∧
    resolveLoop (fun _ => true) folder today orig ext nm p0 c fuel = none := by
  constructor
  · have h := uniqueLoop_all_none (pathParent path) (pathStem path)
      (pathSuffix path) sep fuel 1
    simpa [getUniquePath] using h
  · exact resolveLoop_all_none folder today orig ext fuel nm p0 c

/-! ## C2 — undo of a Delete record without a backup -/

/-- C2: the code contradicts the claim at this input.  `_perform_undo` on
an Executed Delete record whose metadata lacks a backup path falls through
to its trailing `return True`, so `undo_last_action` marks the record
Undone and reports success although the filesystem was not touched and the
file was never restored (the claim — and the spec — require an
`UndoNotPossible` failure with the record left Executed). -/
theorem undo_delete_without_backup_marked_undone :
    (undoLastAction delNoBackupSt).2.fs = delNoBackupSt.fs ∧
    (undoLastAction delNoBackupSt).2.ledger.records =
      [{ delNoBackupRec with status := .undone }] ∧
    (undoLastAction delNoBackupSt).1 =
      some { delNoBackupRec with status := .undone } := by
  decide

/-! ## C4 — status transitions are not enforced -/

/-- C4 counterexample: requesting the illegal transition Failed → Undone
does not fail with `InvalidTransition` (no such error exists in the code);
`mark_undone` applies it and the Failed record becomes Undone. -/
theorem markUndone_on_failed_applied_cex :
    (markUndone 0 { records := [failedRec0], nextId := 1 }).records =
      [{ failedRec0 with status := .undone }] := by
  decide

/-- C4 amended: the store applies any requested status update
unconditionally — `mark_executed`, `mark_failed` and `mark_undone` set the
new status (and error message) on the addressed record whatever its
current status; illegal transitions are silently applied, and no
`InvalidTransition` error exists. -/
theorem status_updates_unconditional (lg : Ledger) (i : Nat) (msg : String)
    (r : ActionRecord) (hmem : r ∈ lg.records) (hid : r.id = i) :
    { r with status := .executed } ∈ (markExecuted i lg).records ∧
    { r with status := .failed, errorMessage := some msg } ∈ (markFailed i msg lg).records ∧
    { r with status := .undone } ∈ (markUndone i lg).records := by
  have hbeq : (r.id == i) = true := by simp [hid]
  refine ⟨?_, ?_, ?_⟩
  · have h := List.mem_map_of_mem
      (fun x => if x.id == i then { x with status := AStatus.executed } else x) hmem
    simpa [markExecuted, hbeq] using h
  · have h := List.mem_map_of_mem
      (fun x => if x.id == i then
        { x with status := AStatus.failed, errorMessage := some msg } else x) hmem
    simpa [markFailed, hbeq] using h
  · have h := List.mem_map_of_mem
      (fun x => if x.id == i then { x with status := AStatus.undone } else x) hmem
    simpa [markUndone, hbeq] using h

/-- C4 amended, witness: the Failed record of the counterexample ledger is
moved to Executed, Failed and Undone by the three calls. -/
theorem status_updates_unconditional_witness :
    { failedRec0 with status := AStatus.executed } ∈
      (markExecuted 0 { records := [failedRec0], nextId := 1 }).records ∧
    { failedRec0 with status := AStatus.failed, errorMessage := some "m" } ∈
      (markFailed 0 "m" { records := [failedRec0], nextId := 1 }).records ∧
    { failedRec0 with status := AStatus.undone } ∈
      (markUndone 0 { records := [failedRec0], nextId := 1 }).records :=
  status_updates_unconditional { records := [failedRec0], nextId := 1 } 0 "m"
    failedRec0 (by simp) rfl

/-! ## C7 — retention cleanup and non-terminal records -/

/-- C7 counterexample: with a count ceiling of 1, cleanup deletes the
older of two Executed records — an Executed record is removed, which the
claim forbids. -/
theorem cleanup_count_deletes_executed_cex :
    (cleanupOldRecords 50 1
        { records := [execRecAt 0 100, execRecAt 1 101], nextId := 2 }).1.records =
      [execRecAt 1 101] ∧
    (execRecAt 0 100).status = .executed := by
  decide

/-- C7 amended: the age ceiling removes only terminal-state records —
every Executed or Pending record survives the age pass — but the
total-count ceiling keeps only the newest `max_history` records regardless
of status, so Executed or Pending records beyond the count ceiling are
deleted (here a Pending record). -/
theorem cleanup_age_terminal_only_count_any (cutoff : Nat)
    (rs : List ActionRecord) (r : ActionRecord) (hmem : r ∈ rs)
    (hst : r.status = .executed ∨ r.status = .pending) :
    r ∈ agePass cutoff rs ∧
    (cleanupOldRecords 50 1
        { records := [pendRecAt 0 100, pendRecAt 1 101], nextId := 2 }).1.records =
      [pendRecAt 1 101] := by
  constructor
  · rw [agePass, List.mem_filter]
    refine ⟨hmem, ?_⟩
    rcases hst with h | h <;> simp [h]
  · decide

/-- C7 amended, witness at a singleton Executed ledger. -/
theorem cleanup_age_terminal_only_count_any_witness :
    execRecAt 0 100 ∈ agePass 200 [execRecAt 0 100] ∧
    (cleanupOldRecords 50 1
        { records := [pendRecAt 0 100, pendRecAt 1 101], nextId := 2 }).1.records =
      [pendRecAt 1 101] :=
  cleanup_age_terminal_only_count_any 200 [execRecAt 0 100] (execRecAt 0 100)
    (by simp) (Or.inl rfl)

/-! ## Helper lemmas about batch execution -/

/-- Unconditional status updates cannot introduce Undone: `mark_executed`. -/
theorem noUndone_markExecuted (i : Nat) (lg : Ledger)
    (h : ∀ r ∈ lg.records, r.status ≠ .undone) :
    ∀ r ∈ (markExecuted i lg).records, r.status ≠ .undone := by
  intro r hr
  rw [markExecuted] at hr
  simp only [List.mem_map] at hr
  obtain ⟨a, ha, rfl⟩ := hr
  by_cases hid : (a.id == i) = true
  · rw [if_pos hid]; intro hco; simp at hco
  · rw [if_neg hid]; exact h a ha

/-- Unconditional status updates cannot introduce Undone: `mark_failed`. -/
theorem noUndone_markFailed (i : Nat) (msg : String) (lg : Ledger)
    (h : ∀ r ∈ lg.records, r.status ≠ .undone) :
    ∀ r ∈ (markFailed i msg lg).records, r.status ≠ .undone := by
  intro r hr
  rw [markFailed] at hr
  simp only [List.mem_map] at hr
  obtain ⟨a, ha, rfl⟩ := hr
  by_cases hid : (a.id == i) = true
  · rw [if_pos hid]; intro hco; simp at hco
  · rw [if_neg hid]; exact h a ha

/-- The write-ahead insert appends a Pending record, never an Undone one. -/
theorem noUndone_recordAction (t : AType) (src : String) (dst bid backup : Option String)
    (ts : Nat) (lg : Ledger) (h : ∀ r ∈ lg.records, r.status ≠ .undone) :
    ∀ r ∈ (recordAction t src dst bid backup ts lg).2.records, r.status ≠ .undone := by
  intro r hr
  rw [recordAction] at hr
  simp only [List.mem_append, List.mem_singleton] at hr
  rcases hr with hr | rfl
  · exact h r hr
  · intro hco; simp at hco

/-- One `_execute_change` call never marks any record Undone. -/
theorem executeChange_noUndone (ch : ProposedChange) (bid : String) (ts : Nat)
    (st : St) (h : ∀ r ∈ st.ledger.records, r.status ≠ .undone) :
    ∀ r ∈ (executeChange ch bid ts st).1.ledger.records, r.status ≠ .undone := by
  cases hact : ch.action
  case move =>
    rcases hfs : fsGetFile (mkdirP st.fs (pathParent ch.destinationPath)) ch.sourcePath
      with _ | v <;>
      simp only [executeChange, hact, hfs] <;>
      first
      | exact noUndone_recordAction _ _ _ _ _ _ _ h
      | exact noUndone_markExecuted _ _ (noUndone_recordAction _ _ _ _ _ _ _ h)
  case copy =>
    rcases hfs : fsGetFile (mkdirP st.fs (pathParent ch.destinationPath)) ch.sourcePath
      with _ | v <;>
      simp only [executeChange, hact, hfs] <;>
      first
      | exact noUndone_recordAction _ _ _ _ _ _ _ h
      | exact noUndone_markExecuted _ _ (noUndone_recordAction _ _ _ _ _ _ _ h)
  case rename =>
    rcases hfs : fsGetFile st.fs ch.sourcePath with _ | v <;>
      simp only [executeChange, hact, hfs] <;>
      first
      | exact noUndone_recordAction _ _ _ _ _ _ _ h
      | exact noUndone_markExecuted _ _ (noUndone_recordAction _ _ _ _ _ _ _ h)
  case createDir => simpa [executeChange, hact] using h
  case tag => simpa [executeChange, hact] using h
  case skip => simpa [executeChange, hact] using h

/-- One loop iteration of `execute` never marks any record Undone. -/
theorem executeItem_noUndone (bid : String) (ts : Nat) (st : St)
    (res : ExecResults) (ch : ProposedChange)
    (h : ∀ r ∈ st.ledger.records, r.status ≠ .undone) :
    ∀ r ∈ (executeItem bid ts st res ch).1.ledger.records, r.status ≠ .undone := by
  have hch := executeChange_noUndone ch bid ts st h
  rcases h1 : executeChange ch bid ts st with ⟨st1, tr, out⟩
  rw [h1] at hch
  rcases out with b | ⟨msg, rid⟩
  · cases b <;> simpa [executeItem, h1] using hch
  · simp only [executeItem, h1]
    exact noUndone_markFailed _ _ _ hch

/-- Each loop iteration accounts for exactly one item: the executed and
failed counters together grow by one. -/
theorem executeItem_count (bid : String) (ts : Nat) (st : St)
    (res : ExecResults) (ch : ProposedChange) :
    (executeItem bid ts st res ch).2.1.executed +
      (executeItem bid ts st res ch).2.1.failed =
      res.executed + res.failed + 1 := by
  rcases h1 : executeChange ch bid ts st with ⟨st1, tr, out⟩
  rcases out with b | ⟨msg, rid⟩
  · cases b <;> simp [executeItem, h1] <;> omega
  · simp [executeItem, h1]; omega

/-- The execution loop never marks any record Undone. -/
theorem executeLoop_noUndone (bid : String) (ts : Nat) :
    ∀ (l : List ProposedChange) (st : St) (res : ExecResults),
    (∀ r ∈ st.ledger.records, r.status ≠ .undone) →
    ∀ r ∈ (executeLoop bid ts l st res).1.ledger.records, r.status ≠ .undone := by
  intro l
  induction l with
  | nil => intro st res h; simpa [executeLoop] using h
  | cons ch rest ih =>
    intro st res h
    have hitem := executeItem_noUndone bid ts st res ch h
    rcases h1 : executeItem bid ts st res ch with ⟨st1, res1, tr⟩
    rw [h1] at hitem
    simpa [executeLoop, h1] using ih st1 res1 hitem

/-- The execution loop attempts every item in its list. -/
theorem executeLoop_count (bid : String) (ts : Nat) :
    ∀ (l : List ProposedChange) (st : St) (res : ExecResults),
    (executeLoop bid ts l st res).2.executed +
      (executeLoop bid ts l st res).2.failed =
      res.executed + res.failed + l.length := by
  intro l
  induction l with
  | nil => intro st res; simp [executeLoop]
  | cons ch rest ih =>
    intro st res
    have hc := executeItem_count bid ts st res ch
    rcases h1 : executeItem bid ts st res ch with ⟨st1, res1, tr⟩
    rw [h1] at hc
    have hc2 : res1.executed + res1.failed = res.executed + res.failed + 1 := hc
    have hrest := ih st1 res1
    simp only [executeLoop, h1, List.length_cons]
    omega

/-! ## C1 — error handling inside a batch run -/

/-- C1 counterexample: running the three-item batch where item 2's move
raises (its source is missing) after item 1 succeeded, the code does not
roll back: item 1's record stays Executed and its file stays at the
destination (not back at `/s/a`), item 3 is still attempted (and
succeeds), the error is only collected in `results['errors']` and the call
returns normally instead of propagating — contradicting the claimed
reverse-order `undoBatch` rollback, the claim that later items are never
attempted, and the claimed propagation. -/
theorem execute_item_failure_no_rollback_cex :
    (threeItemRun.1.ledger.records.map (fun r => r.status)) =
      [.executed, .failed, .executed] ∧
    fsGetFile threeItemRun.1.fs "/s/a" = none ∧
    fsGetFile threeItemRun.1.fs "/d/a" = some 1 ∧
    fsGetFile threeItemRun.1.fs "/d/c" = some 3 ∧
    threeItemRun.2.executed = 2 ∧
    threeItemRun.2.failed = 1 ∧
    threeItemRun.2.errors = [("/s/b", "No such file or directory: /s/b")] ∧
    threeItemRun.2.fatal = none := by
  decide

/-- C1 amended: `Orchestrator.execute` catches each item's exception
inside the loop: the failing item's record is marked Failed, the error is
reported in the aggregated results, and execution continues — so no record
is ever reversed (nothing in the ledger ever becomes Undone during
execute) and every approved item is attempted (the executed and failed
counts sum to the number of approved changes).  `undoBatch` rollback via
`BatchContext.__exit__` would require an exception escaping the per-item
`try`, which the loop prevents. -/
theorem execute_catches_errors_no_rollback (changes : List ProposedChange)
    (bid : String) (ts : Nat) (st : St)
    (h : ∀ r ∈ st.ledger.records, r.status ≠ .undone) :
    (∀ r ∈ (executeSession changes false bid ts st).1.ledger.records,
        r.status ≠ .undone) ∧
    (executeSession changes false bid ts st).2.executed +
        (executeSession changes false bid ts st).2.failed =
      (changes.filter (fun c => c.approved)).length := by
  by_cases he : (changes.filter (fun c => c.approved)).isEmpty
  · have hempty : changes.filter (fun c => c.approved) = [] :=
      List.isEmpty_iff.mp he
    constructor
    · simpa [executeSession, he] using h
    · simp [executeSession, he, hempty, initResults]
  · constructor
    · have := executeLoop_noUndone bid ts (changes.filter (fun c => c.approved))
        st initResults h
      simpa [executeSession, he] using this
    · have hc := executeLoop_count bid ts (changes.filter (fun c => c.approved))
        st initResults
      simpa [executeSession, he, initResults] using hc

/-- C1 amended, witness: the three-item batch starting from an empty
ledger — nothing ends up Undone and all three approved items are counted. -/
theorem execute_catches_errors_no_rollback_witness :
    (∀ r ∈ threeItemSt.ledger.records, r.status ≠ AStatus.undone) ∧
    ((∀ r ∈ (executeSession threeItemChanges false "B" 5 threeItemSt).1.ledger.records,
        r.status ≠ AStatus.undone) ∧
      (executeSession threeItemChanges false "B" 5 threeItemSt).2.executed +
          (executeSession threeItemChanges false "B" 5 threeItemSt).2.failed =
        (threeItemChanges.filter (fun c => c.approved)).length) :=
  ⟨by simp [threeItemSt],
   execute_catches_errors_no_rollback threeItemChanges "B" 5 threeItemSt
     (by simp [threeItemSt])⟩

/-! ## C3 — write-ahead logging order -/

/-- Creating a parent directory does not change any file lookup. -/
theorem fsGetFile_mkdirP (fs : FS) (d p : String) :
    fsGetFile (mkdirP fs d) p = fsGetFile fs p := by
  rw [mkdirP]; split <;> rfl

/-- The freshly appended record, with status switched to Executed, is in
the ledger after `mark_executed`. -/
theorem markExecuted_append_self (rs : List ActionRecord) (rec : ActionRecord)
    (n : Nat) (h : rec.id = n) (nid : Nat) :
    { rec with status := AStatus.executed } ∈
      (markExecuted n { records := rs ++ [rec], nextId := nid }).records := by
  have hmem : rec ∈ rs ++ [rec] := by simp
  rw [markExecuted]
  refine List.mem_map.mpr ⟨rec, hmem, ?_⟩
  simp [h]

/-- The freshly appended record, with status switched to Failed and the
message recorded, is in the ledger after `mark_failed`. -/
theorem markFailed_append_self (rs : List ActionRecord) (rec : ActionRecord)
    (n : Nat) (h : rec.id = n) (msg : String) (nid : Nat) :
    { rec with status := AStatus.failed, errorMessage := some msg } ∈
      (markFailed n msg { records := rs ++ [rec], nextId := nid }).records := by
  have hmem : rec ∈ rs ++ [rec] := by simp
  rw [markFailed]
  refine List.mem_map.mpr ⟨rec, hmem, ?_⟩
  simp [h]

/-- C3: for every move, copy or rename item executed within a batch, the
ledger append of a record carrying the intended source and destination
happens strictly before the physical mutation event; on success that
record ends in status Executed, and on mutation failure (missing source)
it ends Failed carrying the raised error message, which is also reported
to the caller in the aggregated error list. -/
theorem record_appended_before_mutation (bid : String) (ts : Nat) (st : St)
    (res : ExecResults) (ch : ProposedChange)
    (ha : ch.action = .move ∨ ch.action = .copy ∨ ch.action = .rename) :
    appendBeforeMutate st.ledger.nextId (executeItem bid ts st res ch).2.2 = true ∧
    ∃ r ∈ (executeItem bid ts st res ch).1.ledger.records,
      r.id = st.ledger.nextId ∧
      r.sourcePath = ch.sourcePath ∧
      r.destinationPath = ch.destinationPath ∧
      (if (fsGetFile st.fs ch.sourcePath).isSome then r.status = .executed
       else r.status = .failed ∧
         r.errorMessage = some ("No such file or directory: " ++ ch.sourcePath) ∧
         (executeItem bid ts st res ch).2.1.errors =
           res.errors ++ [(ch.sourcePath, "No such file or directory: " ++ ch.sourcePath)]) := by
  have hmk := fsGetFile_mkdirP st.fs (pathParent ch.destinationPath) ch.sourcePath
  rcases ha with hact | hact | hact <;>
    rcases hfs : fsGetFile st.fs ch.sourcePath with _ | v <;>
    simp only [executeItem, executeChange, hact, hmk, hfs, recordAction,
      Option.isSome_none, Option.isSome_some, Bool.false_eq_true, if_false, if_true] <;>
    refine ⟨by simp [appendBeforeMutate], ?_⟩
  · exact ⟨_, markFailed_append_self st.ledger.records _ st.ledger.nextId rfl _ _,
      rfl, rfl, rfl, rfl, rfl, trivial⟩
  · exact ⟨_, markExecuted_append_self st.ledger.records _ st.ledger.nextId rfl _,
      rfl, rfl, rfl, rfl⟩
  · exact ⟨_, markFailed_append_self st.ledger.records _ st.ledger.nextId rfl _ _,
      rfl, rfl, rfl, rfl, rfl, trivial⟩
  · exact ⟨_, markExecuted_append_self st.ledger.records _ st.ledger.nextId rfl _,
      rfl, rfl, rfl, rfl⟩
  · exact ⟨_, markFailed_append_self st.ledger.records _ st.ledger.nextId rfl _ _,
      rfl, rfl, rfl, rfl, rfl, trivial⟩
  · exact ⟨_, markExecuted_append_self st.ledger.records _ st.ledger.nextId rfl _,
      rfl, rfl, rfl, rfl⟩

/-- C3 witness: a concrete move item executed from the empty-ledger state. -/
theorem record_appended_before_mutation_witness :
    appendBeforeMutate threeItemSt.ledger.nextId
      (executeItem "B" 5 threeItemSt initResults (mkMoveChange "/s/a" "/d/a")).2.2 = true ∧
    ∃ r ∈ (executeItem "B" 5 threeItemSt initResults
        (mkMoveChange "/s/a" "/d/a")).1.ledger.records,
      r.id = threeItemSt.ledger.nextId ∧
      r.sourcePath = (mkMoveChange "/s/a" "/d/a").sourcePath ∧
      r.destinationPath = (mkMoveChange "/s/a" "/d/a").destinationPath ∧
      (if (fsGetFile threeItemSt.fs (mkMoveChange "/s/a" "/d/a").sourcePath).isSome then
        r.status = .executed
       else r.status = .failed ∧
         r.errorMessage = some ("No such file or directory: " ++
           (mkMoveChange "/s/a" "/d/a").sourcePath) ∧
         (executeItem "B" 5 threeItemSt initResults
             (mkMoveChange "/s/a" "/d/a")).2.1.errors =
           initResults.errors ++ [((mkMoveChange "/s/a" "/d/a").sourcePath,
             "No such file or directory: " ++ (mkMoveChange "/s/a" "/d/a").sourcePath)]) :=
  record_appended_before_mutation "B" 5 threeItemSt initResults
    (mkMoveChange "/s/a" "/d/a") (Or.inl rfl)

/-! ## C5 — batch undo processes records in reverse insertion order -/

/-- Inserting below everything larger lands at the end. -/
theorem insertDescById_all_lt (r : ActionRecord) (xs : List ActionRecord)
    (h : ∀ x ∈ xs, r.id < x.id) : insertDescById r xs = xs ++ [r] := by
  induction xs with
  | nil => rfl
  | cons x xs ih =>
    have hx := h x (by simp)
    rw [insertDescById, if_neg (by omega), ih (fun y hy => h y (by simp [hy]))]
    rfl

/-- Sorting by descending id reverses a list whose ids ascend. -/
theorem sortDescById_of_ascending (l : List ActionRecord)
    (h : l.Pairwise (fun a b => a.id < b.id)) : sortDescById l = l.reverse := by
  induction l with
  | nil => rfl
  | cons a l ih =>
    rw [List.pairwise_cons] at h
    rw [sortDescById, ih h.2,
      insertDescById_all_lt a l.reverse (fun x hx => h.1 x (List.mem_reverse.mp hx))]
    simp

/-- C5: provided the ledger's ids ascend in insertion order (SQLite
AUTOINCREMENT), `undo_batch` fetches exactly the Executed records carrying
the batch id, in strict reverse insertion order (descending id), and
attempts the inverse of each in exactly that order. -/
theorem undoBatch_reverse_insertion_order (bid : String) (st : St)
    (hasc : st.ledger.records.Pairwise (fun a b => a.id < b.id)) :
    undoBatchSelect bid st.ledger.records =
      (st.ledger.records.filter
        (fun r => r.batchId == some bid && r.status == .executed)).reverse ∧
    (∀ r, r ∈ undoBatchSelect bid st.ledger.records ↔
      (r ∈ st.ledger.records ∧ r.batchId = some bid ∧ r.status = .executed)) ∧
    (undoBatch bid st).2.2 =
      ((st.ledger.records.filter
        (fun r => r.batchId == some bid && r.status == .executed)).reverse).map
        (fun r => r.id) := by
  have hsub : (st.ledger.records.filter
      (fun r => r.batchId == some bid && r.status == .executed)).Pairwise
      (fun a b => a.id < b.id) :=
    hasc.sublist (List.filter_sublist _)
  have h1 : undoBatchSelect bid st.ledger.records =
      (st.ledger.records.filter
        (fun r => r.batchId == some bid && r.status == .executed)).reverse := by
    rw [undoBatchSelect]; exact sortDescById_of_ascending _ hsub
  refine ⟨h1, ?_, ?_⟩
  · intro r
    rw [h1, List.mem_reverse, List.mem_filter]
    simp
  · rcases hl : undoBatchLoop (undoBatchSelect bid st.ledger.records) st []
      with ⟨u, st2⟩
    simp [undoBatch, hl, h1]

/-- C5 witness: the two-record batch is attempted newest-first (ids 1, 0). -/
theorem undoBatch_reverse_insertion_order_witness :
    undoBatchSelect "B" undoBatchStW.ledger.records =
      [batchExecRec "B" 1, batchExecRec "B" 0] ∧
    (undoBatch "B" undoBatchStW).2.2 = [1, 0] := by
  have h := undoBatch_reverse_insertion_order "B" undoBatchStW (by decide)
  refine ⟨?_, ?_⟩
  · rw [h.1]; decide
  · rw [h.2.2]; decide

/-! ## C8 — the destination path formula -/

/-- C8 counterexample: the claimed destination `{root}/{category}/{date}_
{stem}{ext}` fails on reachable inputs.  With an absolute LLM
`suggested_path` the destination is rerouted under that path instead of
`{root}/{category}`; and with a non-lowercase suggested category the
folder is `category.lower()`, not the category itself. -/
theorem destination_formula_cex :
    (determineNewLocation reportFi llmPerception "/dst" "2025-06-01"
        (fun _ => false) 5).map (fun t => t.1) =
      some "/llm/dir/2025-06-01_report.pdf" ∧
    "/llm/dir/2025-06-01_report.pdf" ≠
      "/dst" ++ "/" ++ "documents" ++ "/" ++ "2025-06-01_report.pdf" ∧
    (determineNewLocation reportFi upperPerception "/dst" "2025-06-01"
        (fun _ => false) 5).map (fun t => t.1) =
      some "/dst/documents/2025-06-01_report.pdf" ∧
    "/dst/documents/2025-06-01_report.pdf" ≠
      "/dst" ++ "/" ++ "Documents" ++ "/" ++ "2025-06-01_report.pdf" := by
  decide

/-- C8 amended: for a file whose stem carries no ISO date and whose first
candidate is free, the computed destination is
`{root}/{lowercase(category)}/{date}_{stem}{ext}` when the perception has
no suggested path, but `{suggested_path}/{date}_{stem}{ext}` when the
suggested path is a non-empty absolute path; on the spec's concrete
example (lowercase category, no override) the free case gives
`/dst/documents/2025-06-01_report.pdf` and a collision on exactly that
path gives `..._report_1.pdf`. -/
theorem destination_formula (fi : FileInfo) (p : PerceptionResult)
    (root today : String) (ex : String → Bool) (fuel : Nat) (cat : String)
    (hc : chooseCategory p.suggestedCategory fi.category = cat)
    (hiso : startsWithIsoDate (pathStem fi.path) = false)
    (hfree : ex ((root ++ "/" ++ lowerStr cat) ++ "/" ++
      (today ++ "_" ++ pathStem fi.path ++ pathSuffix fi.path)) = false)
    (hfuel : 0 < fuel) :
    (p.suggestedPath = none →
      determineNewLocation fi p root today ex fuel =
        some ((root ++ "/" ++ lowerStr cat) ++ "/" ++
            (today ++ "_" ++ pathStem fi.path ++ pathSuffix fi.path),
          today ++ "_" ++ pathStem fi.path ++ pathSuffix fi.path,
          "Categorized as \x27" ++ cat ++ "\x27 based on content analysis")) ∧
    (∀ sp : String, p.suggestedPath = some sp → sp ≠ "" →
      strStarts "/" sp = true →
      determineNewLocation fi p root today ex fuel =
        some (sp ++ "/" ++
            (today ++ "_" ++ pathStem fi.path ++ pathSuffix fi.path),
          today ++ "_" ++ pathStem fi.path ++ pathSuffix fi.path,
          "LLM suggested: " ++ sp)) ∧
    determineNewLocation reportFi reportPerception "/dst" "2025-06-01"
        (fun _ => false) 5 =
      some ("/dst/documents/2025-06-01_report.pdf", "2025-06-01_report.pdf",
        "Categorized as \x27documents\x27 based on content analysis") ∧
    determineNewLocation reportFi reportPerception "/dst" "2025-06-01"
        (fun s => s == "/dst/documents/2025-06-01_report.pdf") 5 =
      some ("/dst/documents/2025-06-01_report_1.pdf", "2025-06-01_report_1.pdf",
        "Categorized as \x27documents\x27 based on content analysis") := by
  obtain ⟨n, rfl⟩ : ∃ n, fuel = n + 1 := ⟨fuel - 1, by omega⟩
  refine ⟨?_, ?_, by decide, by decide⟩
  · intro hnp
    simp only [determineNewLocation, hc, hiso, hnp, Bool.false_eq_true, if_false]
    rw [resolveLoop, if_neg (by rw [hfree]; exact fun hco => by cases hco)]
  · intro sp hsp hne hstart
    have hcond : ((!(sp == "")) && strStarts "/" sp) = true := by
      simp [hne, hstart]
    simp only [determineNewLocation, hc, hiso, hsp, Bool.false_eq_true, if_false]
    rw [resolveLoop, if_neg (by rw [hfree]; exact fun hco => by cases hco)]
    simp only [hcond, if_true]

/-- C8 amended, witness: the report example through the no-override branch
and through the absolute LLM-override branch. -/
theorem destination_formula_witness :
    determineNewLocation reportFi reportPerception "/dst" "2025-06-01"
        (fun _ => false) 5 =
      some (("/dst" ++ "/" ++ lowerStr "documents") ++ "/" ++
          ("2025-06-01" ++ "_" ++ pathStem reportFi.path ++ pathSuffix reportFi.path),
        "2025-06-01" ++ "_" ++ pathStem reportFi.path ++ pathSuffix reportFi.path,
        "Categorized as \x27" ++ "documents" ++ "\x27 based on content analysis") ∧
    determineNewLocation reportFi llmPerception "/dst" "2025-06-01"
        (fun _ => false) 5 =
      some ("/llm/dir" ++ "/" ++
          ("2025-06-01" ++ "_" ++ pathStem reportFi.path ++ pathSuffix reportFi.path),
        "2025-06-01" ++ "_" ++ pathStem reportFi.path ++ pathSuffix reportFi.path,
        "LLM suggested: " ++ "/llm/dir") :=
  ⟨(destination_formula reportFi reportPerception "/dst" "2025-06-01"
      (fun _ => false) 5 "documents" (by decide) (by decide) (by decide)
      (by decide)).1 rfl,
   (destination_formula reportFi llmPerception "/dst" "2025-06-01"
      (fun _ => false) 5 "documents" (by decide) (by decide) (by decide)
      (by decide)).2.1 "/llm/dir" rfl (by decide) (by decide)⟩

/-! ## C9 — already-organized detection and idempotence -/

/-- Indexing into a `take` below the cut agrees with the original list. -/
theorem getD_take_lt (cs : List Char) : ∀ (i j : Nat) (d : Char), j < i →
    (cs.take i).getD j d = cs.getD j d := by
  induction cs with
  | nil => intro i j d _; simp
  | cons c cs ih =>
    intro i j d h
    cases i with
    | zero => omega
    | succ i =>
      cases j with
      | zero => simp
      | succ j =>
        simp only [List.take_succ_cons, List.getD_cons_succ]
        exact ih i j d (by omega)

/-- The ISO-date check only reads the first ten characters, so it is
preserved by dropping a `take` around the list. -/
theorem isoDateChars_of_take (cs : List Char) (i : Nat)
    (h : isoDateChars (List.take i cs) = true) : isoDateChars cs = true := by
  simp only [isoDateChars, digitAt, Bool.and_eq_true, decide_eq_true_eq,
    beq_iff_eq] at h ⊢
  obtain ⟨⟨⟨⟨⟨⟨⟨⟨⟨⟨hL, h0⟩, h1⟩, h2⟩, h3⟩, h4⟩, h5⟩, h6⟩, h7⟩, h8⟩, h9⟩ := h
  rw [List.length_take] at hL
  have hi1 : 10 ≤ i := le_trans hL (Nat.min_le_left i cs.length)
  have hi2 : 10 ≤ cs.length := le_trans hL (Nat.min_le_right i cs.length)
  rw [getD_take_lt cs i 0 ' ' (by omega)] at h0
  rw [getD_take_lt cs i 1 ' ' (by omega)] at h1
  rw [getD_take_lt cs i 2 ' ' (by omega)] at h2
  rw [getD_take_lt cs i 3 ' ' (by omega)] at h3
  rw [getD_take_lt cs i 4 ' ' (by omega)] at h4
  rw [getD_take_lt cs i 5 ' ' (by omega)] at h5
  rw [getD_take_lt cs i 6 ' ' (by omega)] at h6
  rw [getD_take_lt cs i 7 ' ' (by omega)] at h7
  rw [getD_take_lt cs i 8 ' ' (by omega)] at h8
  rw [getD_take_lt cs i 9 ' ' (by omega)] at h9
  exact ⟨⟨⟨⟨⟨⟨⟨⟨⟨⟨hi2, h0⟩, h1⟩, h2⟩, h3⟩, h4⟩, h5⟩, h6⟩, h7⟩, h8⟩, h9⟩

/-- A stem that starts with an ISO date forces the whole filename to. -/
theorem startsWithIsoDate_of_stem (s : String)
    (h : startsWithIsoDate (pathStem s) = true) :
    startsWithIsoDate (pathName s) = true := by
  simp only [pathStem] at h
  split at h
  · split at h
    · exact isoDateChars_of_take _ _ h
    · exact h
  · exact h

/-- The ISO-date check only reads the first ten characters, so it is
preserved by appending on the right. -/
theorem isoDateChars_append_left (l1 l2 : List Char) (h : 10 ≤ l1.length) :
    isoDateChars (l1 ++ l2) = isoDateChars l1 := by
  simp only [isoDateChars, digitAt]
  rw [List.getD_append _ _ _ _ (by omega), List.getD_append _ _ _ _ (by omega),
    List.getD_append _ _ _ _ (by omega), List.getD_append _ _ _ _ (by omega),
    List.getD_append _ _ _ _ (by omega), List.getD_append _ _ _ _ (by omega),
    List.getD_append _ _ _ _ (by omega), List.getD_append _ _ _ _ (by omega),
    List.getD_append _ _ _ _ (by omega), List.getD_append _ _ _ _ (by omega)]
  rw [List.length_append]
  rw [decide_eq_true (show 10 ≤ l1.length + l2.length by omega), decide_eq_true h]

/-- A ten-character ISO-date string keeps matching after any extension. -/
theorem startsWithIsoDate_append (s z : String) (h10 : s.length = 10)
    (hiso : startsWithIsoDate s = true) :
    startsWithIsoDate (s ++ z) = true := by
  have hlen : s.toList.length = 10 := h10
  have hdata : (s ++ z).toList = s.toList ++ z.toList := String.data_append s z
  rw [startsWithIsoDate] at hiso ⊢
  rw [hdata, isoDateChars_append_left _ _ (by omega)]
  exact hiso

/-- Every name the conflict loop can return is either its starting name
or a freshly built `{today}_{orig}_{counter}{ext}`. -/
theorem resolveLoop_name_cases (ex : String → Bool) (folder today orig ext : String) :
    ∀ (fuel : Nat) (nm path : String) (c : Nat) (np nn : String),
      resolveLoop ex folder today orig ext nm path c fuel = some (np, nn) →
      nn = nm ∨ ∃ k : Nat, nn = today ++ "_" ++ orig ++ "_" ++ toString k ++ ext := by
  intro fuel
  induction fuel with
  | zero => intro nm path c np nn h; simp [resolveLoop] at h
  | succ n ih =>
    intro nm path c np nn h
    rw [resolveLoop] at h
    by_cases hex : ex path = true
    · rw [if_pos hex] at h
      rcases ih _ _ _ _ _ h with h1 | ⟨k, hk⟩
      · exact Or.inr ⟨c, h1⟩
      · exact Or.inr ⟨k, hk⟩
    · rw [if_neg hex] at h
      injection h with h2
      injection h2 with h3 h4
      exact Or.inl h4.symm

/-- Any name `_determine_new_location` returns starts with an ISO date,
given that `today` is a ten-character ISO date. -/
theorem determineNewLocation_name_iso (fi : FileInfo) (p : PerceptionResult)
    (root today : String) (ex : String → Bool) (fuel : Nat)
    (np nn rsn : String) (h10 : today.length = 10)
    (hiso : startsWithIsoDate today = true)
    (h : determineNewLocation fi p root today ex fuel = some (np, nn, rsn)) :
    startsWithIsoDate nn = true := by
  simp only [determineNewLocation] at h
  split at h
  · exact Option.noConfusion h
  · rename_i x0 np0 nn0 heq
    have hres := resolveLoop_name_cases ex _ today _ _ fuel _ _ 1 np0 nn0 heq
    have hnn0 : startsWithIsoDate nn0 = true := by
      rcases hres with h1 | ⟨k, hk⟩
      · rw [h1]
        split
        · rename_i hstem; exact startsWithIsoDate_of_stem _ hstem
        · simp only [String.append_assoc]
          exact startsWithIsoDate_append _ _ h10 hiso
      · rw [hk]
        simp only [String.append_assoc]
        exact startsWithIsoDate_append _ _ h10 hiso
    split at h
    · split at h
      · simp only [Option.some.injEq, Prod.mk.injEq] at h
        exact h.2.1 ▸ hnn0
      · simp only [Option.some.injEq, Prod.mk.injEq] at h
        exact h.2.1 ▸ hnn0
    · simp only [Option.some.injEq, Prod.mk.injEq] at h
      exact h.2.1 ▸ hnn0

/-- C9: a file whose name starts with `\d{4}-\d{2}-\d{2}` is proposed a
no-op Skip (never a move); and any filename produced by
`_determine_new_location` on a valid ISO `today` itself starts with an ISO
date, so feeding it through proposal generation a second time yields a
Skip — the proposal step is idempotent on already-processed files. -/
theorem skip_already_organized (fi fi2 : FileInfo) (p p2 : PerceptionResult)
    (root today root2 today2 : String) (ex ex2 : String → Bool)
    (fuel fuel2 : Nat) (np nn rsn : String) :
    (isAlreadyOrganized fi = true →
      generateProposal fi p root today ex fuel = some (some (skipChange fi))) ∧
    (today.length = 10 → startsWithIsoDate today = true →
      determineNewLocation fi p root today ex fuel = some (np, nn, rsn) →
      fi2.name = nn →
      isAlreadyOrganized fi2 = true ∧
      generateProposal fi2 p2 root2 today2 ex2 fuel2 = some (some (skipChange fi2))) := by
  have hskip : ∀ (g : FileInfo) (q : PerceptionResult) (r t : String)
      (e : String → Bool) (f : Nat), isAlreadyOrganized g = true →
      generateProposal g q r t e f = some (some (skipChange g)) := by
    intro g q r t e f hg
    rw [generateProposal, if_pos hg]
    rfl
  refine ⟨hskip fi p root today ex fuel, ?_⟩
  intro h10 hiso2 hdet hname
  have hnn : startsWithIsoDate nn = true :=
    determineNewLocation_name_iso fi p root today ex fuel np nn rsn h10 hiso2 hdet
  have horg : isAlreadyOrganized fi2 = true := by
    rw [isAlreadyOrganized, hname]; exact hnn
  exact ⟨horg, hskip fi2 p2 root2 today2 ex2 fuel2 horg⟩

/-- C9 witness: the 2025-06-01 report name from the C8 example, fed back
through proposal generation, is skipped. -/
theorem skip_already_organized_witness :
    (generateProposal reportFi2 reportPerception "/dst" "2025-06-01"
        (fun _ => false) 5 = some (some (skipChange reportFi2))) ∧
    (isAlreadyOrganized reportFi2 = true ∧
      generateProposal reportFi2 reportPerception "/dst" "2025-06-01"
        (fun _ => false) 5 = some (some (skipChange reportFi2))) :=
  ⟨(skip_already_organized reportFi2 reportFi2 reportPerception reportPerception
      "/dst" "2025-06-01" "/dst" "2025-06-01" (fun _ => false) (fun _ => false)
      5 5 "" "" "").1 (by decide),
   (skip_already_organized reportFi reportFi2 reportPerception reportPerception
      "/dst" "2025-06-01" "/dst" "2025-06-01" (fun _ => false) (fun _ => false)
      5 5 "/dst/documents/2025-06-01_report.pdf" "2025-06-01_report.pdf"
      "Categorized as \x27documents\x27 based on content analysis").2
    (by decide) (by decide) (by decide) rfl⟩

/-! ## C10 — approve_single / reject_single index handling -/

/-- Setting the flag does not change the list length. -/
theorem setApprovedAt_length (b : Bool) :
    ∀ (l : List ProposedChange) (j : Nat),
    (setApprovedAt b l j).length = l.length := by
  intro l
  induction l with
  | nil => intro j; rfl
  | cons c cs ih =>
    intro j
    cases j with
    | zero => rfl
    | succ j => simp only [setApprovedAt, List.length_cons, ih j]

/-- At the addressed index only the `approved` flag changes. -/
theorem setApprovedAt_getD_eq (b : Bool) (d : ProposedChange) :
    ∀ (l : List ProposedChange) (j : Nat), j < l.length →
    (setApprovedAt b l j).getD j d = { l.getD j d with approved := b } := by
  intro l
  induction l with
  | nil => intro j h; simp at h
  | cons c cs ih =>
    intro j h
    cases j with
    | zero => rfl
    | succ j =>
      simp only [setApprovedAt, List.getD_cons_succ]
      exact ih j (by simpa using h)

/-- Entries at other indices are untouched. -/
theorem setApprovedAt_getD_ne (b : Bool) (d : ProposedChange) :
    ∀ (l : List ProposedChange) (j k : Nat), k ≠ j →
    (setApprovedAt b l j).getD k d = l.getD k d := by
  intro l
  induction l with
  | nil => intro j k _; rfl
  | cons c cs ih =>
    intro j k hne
    cases j with
    | zero =>
      cases k with
      | zero => omega
      | succ k => rfl
    | succ j =>
      cases k with
      | zero => rfl
      | succ k =>
        simp only [setApprovedAt, List.getD_cons_succ]
        exact ih j k (by omega)

/-- C10: with no session, approve_single/reject_single return False and
change nothing; for `i ≥ n` they return False leaving the list unchanged;
for `0 ≤ i < n` they return True and set (resp. clear) exactly the flag of
change `i`; and a negative `-n ≤ i < 0` is not rejected but modifies the
change at position `n + i` (Python negative indexing) and returns True. -/
theorem approve_reject_single_indexing (chs : List ProposedChange) (i : Int)
    (d : ProposedChange) :
    (approveSingle none i = some (false, none) ∧
      rejectSingle none i = some (false, none)) ∧
    ((chs.length : Int) ≤ i →
      approveSingle (some chs) i = some (false, some chs) ∧
      rejectSingle (some chs) i = some (false, some chs)) ∧
    (0 ≤ i → i < (chs.length : Int) →
      approveSingle (some chs) i =
        some (true, some (setApprovedAt true chs i.toNat)) ∧
      rejectSingle (some chs) i =
        some (true, some (setApprovedAt false chs i.toNat))) ∧
    (-(chs.length : Int) ≤ i → i < 0 →
      approveSingle (some chs) i =
        some (true, some (setApprovedAt true chs ((chs.length : Int) + i).toNat)) ∧
      rejectSingle (some chs) i =
        some (true, some (setApprovedAt false chs ((chs.length : Int) + i).toNat))) ∧
    (∀ (b : Bool) (j : Nat), j < chs.length →
      (setApprovedAt b chs j).length = chs.length ∧
      (setApprovedAt b chs j).getD j d = { chs.getD j d with approved := b } ∧
      ∀ k, k ≠ j → (setApprovedAt b chs j).getD k d = chs.getD k d) := by
  refine ⟨⟨rfl, rfl⟩, ?_, ?_, ?_, ?_⟩
  · intro hge
    constructor <;>
      simp only [approveSingle, rejectSingle, approveFlagSingle, if_pos hge]
  · intro h0 hlt
    have hcond : 0 ≤ i ∧ i < (chs.length : Int) := ⟨h0, hlt⟩
    constructor <;>
      simp only [approveSingle, rejectSingle, approveFlagSingle,
        if_neg (not_le.mpr hlt), if_neg (not_lt.mpr h0), if_pos hcond]
  · intro hge hlt
    have h1 : ¬((chs.length : Int) ≤ i) := by omega
    have h2 : (0 : Int) ≤ (chs.length : Int) + i ∧
        (chs.length : Int) + i < (chs.length : Int) := by omega
    constructor <;>
      simp only [approveSingle, rejectSingle, approveFlagSingle, if_neg h1,
        if_pos hlt, if_pos h2]
  · intro b j hj
    exact ⟨setApprovedAt_length b chs j, setApprovedAt_getD_eq b d chs j hj,
      fun k hk => setApprovedAt_getD_ne b d chs j k hk⟩

/-- C10 witness: a two-change session probed at indices 5, 1 and -1. -/
theorem approve_reject_single_indexing_witness :
    (approveSingle (some [skipChange reportFi, mkMoveChange "/a" "/b"]) 5 =
        some (false, some [skipChange reportFi, mkMoveChange "/a" "/b"]) ∧
      rejectSingle (some [skipChange reportFi, mkMoveChange "/a" "/b"]) 5 =
        some (false, some [skipChange reportFi, mkMoveChange "/a" "/b"])) ∧
    (approveSingle (some [skipChange reportFi, mkMoveChange "/a" "/b"]) 1 =
        some (true, some (setApprovedAt true
          [skipChange reportFi, mkMoveChange "/a" "/b"] (1 : Int).toNat)) ∧
      rejectSingle (some [skipChange reportFi, mkMoveChange "/a" "/b"]) 1 =
        some (true, some (setApprovedAt false
          [skipChange reportFi, mkMoveChange "/a" "/b"] (1 : Int).toNat))) ∧
    (approveSingle (some [skipChange reportFi, mkMoveChange "/a" "/b"]) (-1) =
        some (true, some (setApprovedAt true
          [skipChange reportFi, mkMoveChange "/a" "/b"]
          ((([skipChange reportFi, mkMoveChange "/a" "/b"].length : Int)) + -1).toNat)) ∧
      rejectSingle (some [skipChange reportFi, mkMoveChange "/a" "/b"]) (-1) =
        some (true, some (setApprovedAt false
          [skipChange reportFi, mkMoveChange "/a" "/b"]
          ((([skipChange reportFi, mkMoveChange "/a" "/b"].length : Int)) + -1).toNat))) ∧
    ((setApprovedAt true [skipChange reportFi, mkMoveChange "/a" "/b"] 0).length =
        [skipChange reportFi, mkMoveChange "/a" "/b"].length ∧
      (setApprovedAt true [skipChange reportFi, mkMoveChange "/a" "/b"] 0).getD 0
          (mkMoveChange "/x" "/y") =
        { ([skipChange reportFi, mkMoveChange "/a" "/b"].getD 0
            (mkMoveChange "/x" "/y")) with approved := true } ∧
      ∀ k, k ≠ 0 →
        (setApprovedAt true [skipChange reportFi, mkMoveChange "/a" "/b"] 0).getD k
            (mkMoveChange "/x" "/y") =
          [skipChange reportFi, mkMoveChange "/a" "/b"].getD k (mkMoveChange "/x" "/y")) :=
  ⟨(approve_reject_single_indexing [skipChange reportFi, mkMoveChange "/a" "/b"]
      5 (mkMoveChange "/x" "/y")).2.1 (by decide),
   (approve_reject_single_indexing [skipChange reportFi, mkMoveChange "/a" "/b"]
      1 (mkMoveChange "/x" "/y")).2.2.1 (by decide) (by decide),
   (approve_reject_single_indexing [skipChange reportFi, mkMoveChange "/a" "/b"]
      (-1) (mkMoveChange "/x" "/y")).2.2.2.1 (by decide) (by decide),
   (approve_reject_single_indexing [skipChange reportFi, mkMoveChange "/a" "/b"]
      (-1) (mkMoveChange "/x" "/y")).2.2.2.2 true 0 (by decide)⟩

end Organizer
